import Mathlib

/-!
Sandbox-violation collector: parsing engine

A shallow embedding of `pkg/collector` (the macOS and the Linux collector) together with the
pieces of the Go standard library the two collectors call (`regexp`, `strings`, `bufio.Scanner`,
`time.Parse`, `time.Date`).

Conventions of the embedding.

* A Go `string` is a Lean `String`, that is, a sequence of Unicode code points (valid UTF-8 text).
  Byte lengths, where Go measures bytes, are computed with `Char.utf8Size`.
* `time.Now()` is an input: the functions that read the clock take the reading as the
  argument `now`. The location `time.Local` of the host is an input too, the argument `Local`.
* A `time.Time` is represented by what its accessors return: the date, the clock and the zone
  offset. `time.Date` is computed in 64-bit integers, as in the library.
* The part of `unicode.ToLower` that consults the Unicode case tables (code points above
  U+007F) is the parameter `tbl`; the ASCII part is computed.
-/

namespace Collector

/-! ## Regular expressions (package `regexp`)

The fragment of RE2 syntax used by the four patterns of the collectors, with the
leftmost-first (backtracking order) semantics of Go's `regexp`. -/

/-- Character classes. -/
inductive Cls where
  /-- The class `\d`. -/
  | digit
  /-- The class `\w`. -/
  | word
  /-- The class `\w` under the flag `(?i)`: case folding adds U+017F and U+212A. -/
  | wordFold
  /-- The class `\s`. -/
  | space
  /-- The class `\S`. -/
  | notSpace
  /-- The class `.` (no `s` flag): every character but the newline. -/
  | dot
  /-- A bracket expression listing single characters. -/
  | oneOf (cs : List Char)
  /-- Union of two classes inside one bracket expression. -/
  | union (a b : Cls)

/-- ASCII digit `[0-9]`. -/
def isDigit (c : Char) : Bool := decide (48 ≤ c.toNat) && decide (c.toNat ≤ 57)

/-- Word character `[0-9A-Za-z_]`. -/
def isWord (c : Char) : Bool :=
  isDigit c || (decide (65 ≤ c.toNat) && decide (c.toNat ≤ 90)) ||
    (decide (97 ≤ c.toNat) && decide (c.toNat ≤ 122)) || decide (c.toNat = 95)

/-- The class `\s` of RE2: `[\t\n\f\r ]`. -/
def isReSpace (c : Char) : Bool :=
  decide (c.toNat = 9) || decide (c.toNat = 10) || decide (c.toNat = 12) ||
    decide (c.toNat = 13) || decide (c.toNat = 32)

/-- Membership of a character in a class. -/
def Cls.test : Cls → Char → Bool
  | .digit, c => isDigit c
  | .word, c => isWord c
  | .wordFold, c => isWord c || decide (c.toNat = 0x17F) || decide (c.toNat = 0x212A)
  | .space, c => isReSpace c
  | .notSpace, c => !isReSpace c
  | .dot, c => !decide (c.toNat = 10)
  | .oneOf cs, c => cs.contains c
  | .union a b, c => a.test c || b.test c

/-- Regular expressions. Repetition is over a single character class, which is all the
patterns of the collectors use. -/
inductive Re where
  /-- The anchor `^`: beginning of text. -/
  | bol
  /-- The anchor `$`: end of text. -/
  | eol
  /-- One character of a class. -/
  | cls (c : Cls)
  /-- A literal string; `fold` is the flag `(?i)`. -/
  | lit (s : List Char) (fold : Bool)
  /-- The repetition `c*` (greedy) or `c*?` (lazy). -/
  | star (c : Cls) (greedy : Bool)
  /-- Concatenation. -/
  | seq (a b : Re)
  /-- Alternation `a|b`, preferring `a`. -/
  | alt (a b : Re)
  /-- Capturing group number `i`. -/
  | group (i : Nat) (a : Re)

/-- The repetition `c+`, greedy. -/
def Re.plus (c : Cls) : Re := .seq (.cls c) (.star c true)

/-- The counted repetition `c{n}`. -/
def Re.times (c : Cls) : Nat → Re
  | 0 => .lit [] false
  | 1 => .cls c
  | n + 1 => .seq (.cls c) (Re.times c n)

/-- Concatenation of a list of expressions. -/
def Re.cat : List Re → Re
  | [] => .lit [] false
  | [a] => a
  | a :: as => .seq a (Re.cat as)

/-- Simple case folding of a character, exact on the orbits of the ASCII letters:
`k`, `K`, U+212A and `s`, `S`, U+017F. -/
def foldChar (c : Char) : Char :=
  if 65 ≤ c.toNat ∧ c.toNat ≤ 90 then Char.ofNat (c.toNat + 32)
  else if c.toNat = 0x17F then 's'
  else if c.toNat = 0x212A then 'k'
  else c

/-- One pattern character against one text character. -/
def litCharEq (fold : Bool) (p t : Char) : Bool :=
  if fold then decide (foldChar p = foldChar t) else decide (p = t)

/-- Strip the literal `s` from the front of the text, if it is there. -/
def stripLit (fold : Bool) : List Char → List Char → Option (List Char)
  | [], rest => some rest
  | _ :: _, [] => none
  | p :: ps, t :: ts => if litCharEq fold p t then stripLit fold ps ts else none

/-- The state of a match in progress: the offset, the unread text, and the captures so far
(index 0 is the whole match). -/
structure MState where
  /-- Offset of `rest` in the text, in characters. -/
  pos : Nat
  /-- The text from the offset on. -/
  rest : List Char
  /-- The captured substrings. -/
  caps : List (List Char)

/-- Greedy repetition of a class: take one more character first, stop here second. -/
def starGreedy {R : Type} (c : Cls) (k : Nat → List Char → Option R) :
    Nat → List Char → Option R
  | pos, [] => k pos []
  | pos, x :: xs =>
    if c.test x then
      match starGreedy c k (pos + 1) xs with
      | some r => some r
      | none => k pos (x :: xs)
    else k pos (x :: xs)

/-- Lazy repetition of a class: stop here first, take one more character second. -/
def starLazy {R : Type} (c : Cls) (k : Nat → List Char → Option R) :
    Nat → List Char → Option R
  | pos, [] => k pos []
  | pos, x :: xs =>
    match k pos (x :: xs) with
    | some r => some r
    | none => if c.test x then starLazy c k (pos + 1) xs else none

/-- Backtracking matcher in continuation-passing style: `k` is the rest of the pattern, and the
first success in backtracking order is the result. -/
def Re.run {R : Type} : Re → MState → (MState → Option R) → Option R
  | .bol, st, k => if st.pos = 0 then k st else none
  | .eol, st, k =>
    match st.rest with
    | [] => k st
    | _ :: _ => none
  | .cls c, st, k =>
    match st.rest with
    | [] => none
    | x :: xs => if c.test x then k { st with pos := st.pos + 1, rest := xs } else none
  | .lit s fold, st, k =>
    match stripLit fold s st.rest with
    | some rest => k { st with pos := st.pos + s.length, rest := rest }
    | none => none
  | .star c true, st, k =>
    starGreedy c (fun p r => k { st with pos := p, rest := r }) st.pos st.rest
  | .star c false, st, k =>
    starLazy c (fun p r => k { st with pos := p, rest := r }) st.pos st.rest
  | .seq a b, st, k => a.run st (fun st1 => b.run st1 k)
  | .alt a b, st, k =>
    match a.run st k with
    | some r => some r
    | none => b.run st k
  | .group i a, st, k =>
    a.run st (fun st1 => k { st1 with caps := st1.caps.set i (st.rest.take (st1.pos - st.pos)) })

/-- A compiled pattern: the expression and its number of capturing groups. -/
structure Regexp where
  /-- The expression. -/
  re : Re
  /-- The number of capturing groups. -/
  numSubexp : Nat

/-- Unanchored search: the leftmost offset at which the expression matches. -/
def Regexp.search (p : Regexp) : Nat → List Char → Option (List (List Char))
  | pos, [] =>
    (Re.group 0 p.re).run ⟨pos, [], List.replicate (p.numSubexp + 1) []⟩ (fun st => some st.caps)
  | pos, x :: xs =>
    match (Re.group 0 p.re).run ⟨pos, x :: xs, List.replicate (p.numSubexp + 1) []⟩
        (fun st => some st.caps) with
    | some r => some r
    | none => Regexp.search p (pos + 1) xs

/-- The method `(*Regexp).FindStringSubmatch`: the leftmost match and its groups, or the nil
slice (here the empty list) when there is no match. -/
def Regexp.FindStringSubmatch (p : Regexp) (s : String) : List String :=
  match p.search 0 s.data with
  | some caps => caps.map String.mk
  | none => []

/-- The pattern `Sandbox:\s+(\w+)\((\d+)\)\s+deny\((\d+)\)\s+([\w-]+)\s+(.+)$`. -/
def sandboxPattern : Regexp :=
  { re := Re.cat [.lit "Sandbox:".data false, Re.plus .space, .group 1 (Re.plus .word),
      .lit "(".data false, .group 2 (Re.plus .digit), .lit ")".data false, Re.plus .space,
      .lit "deny(".data false, .group 3 (Re.plus .digit), .lit ")".data false, Re.plus .space,
      .group 4 (Re.plus (.union .word (.oneOf ['-']))), Re.plus .space,
      .group 5 (Re.plus .dot), .eol]
    numSubexp := 5 }

/-- The pattern `^(\d{4}-\d{2}-\d{2}\s+\d{2}:\d{2}:\d{2}\.\d+[+-]\d{4})`. -/
def timestampPattern : Regexp :=
  { re := Re.cat [.bol, .group 1 (Re.cat [Re.times .digit 4, .lit "-".data false,
      Re.times .digit 2, .lit "-".data false, Re.times .digit 2, Re.plus .space,
      Re.times .digit 2, .lit ":".data false, Re.times .digit 2, .lit ":".data false,
      Re.times .digit 2, .lit ".".data false, Re.plus .digit, .cls (.oneOf ['+', '-']),
      Re.times .digit 4])]
    numSubexp := 1 }

/-- The pattern `^(\w+\s+\d+\s+\d{2}:\d{2}:\d{2})\s+\S+\s+(\w+)\[(\d+)\]:\s+(.+)$`. -/
def journalPattern : Regexp :=
  { re := Re.cat [.bol, .group 1 (Re.cat [Re.plus .word, Re.plus .space, Re.plus .digit,
      Re.plus .space, Re.times .digit 2, .lit ":".data false, Re.times .digit 2,
      .lit ":".data false, Re.times .digit 2]), Re.plus .space, Re.plus .notSpace,
      Re.plus .space, .group 2 (Re.plus .word), .lit "[".data false, .group 3 (Re.plus .digit),
      .lit "]:".data false, Re.plus .space, .group 4 (Re.plus .dot), .eol]
    numSubexp := 4 }

/-- The pattern `(?i)(permission denied|eperm|access denied|denied).*?([/\w\-\.]+)`. -/
def bwrapPattern : Regexp :=
  { re := Re.cat [.group 1 (.alt (.lit "permission denied".data true)
        (.alt (.lit "eperm".data true)
          (.alt (.lit "access denied".data true) (.lit "denied".data true)))),
      .star .dot false,
      .group 2 (Re.plus (.union (.oneOf ['/']) (.union .wordFold (.oneOf ['-', '.']))))]
    numSubexp := 2 }


/-! ## Package `strings` and `unicode` -/

/-- The function `unicode.ToLower`: ASCII is computed, and above U+007F the case tables
`tbl` are consulted. -/
def unicode.ToLower (tbl : Char → Char) (c : Char) : Char :=
  if c.toNat ≤ 0x7F then
    if 65 ≤ c.toNat ∧ c.toNat ≤ 90 then Char.ofNat (c.toNat + 32) else c
  else tbl c

/-- The function `unicode.IsSpace`: the Unicode property White_Space. -/
def unicode.IsSpace (c : Char) : Bool :=
  let n := c.toNat
  decide (9 ≤ n ∧ n ≤ 13) || decide (n = 0x20) || decide (n = 0x85) || decide (n = 0xA0) ||
    decide (n = 0x1680) || decide (0x2000 ≤ n ∧ n ≤ 0x200A) || decide (n = 0x2028) ||
    decide (n = 0x2029) || decide (n = 0x202F) || decide (n = 0x205F) || decide (n = 0x3000)

/-- Whether `sub` occurs in `s` at some offset. -/
def containsChars : List Char → List Char → Bool
  | [], sub => sub.isEmpty
  | c :: t, sub => sub.isPrefixOf (c :: t) || containsChars t sub

/-- The function `strings.Contains`. -/
def strings.Contains (s substr : String) : Bool := containsChars s.data substr.data

/-- The function `strings.ToLower`: every code point is mapped by `unicode.ToLower`. -/
def strings.ToLower (tbl : Char → Char) (s : String) : String :=
  ⟨s.data.map (unicode.ToLower tbl)⟩

/-- The function `strings.TrimSpace`: leading and trailing white space removed. -/
def strings.TrimSpace (s : String) : String :=
  ⟨((s.data.dropWhile unicode.IsSpace).reverse.dropWhile unicode.IsSpace).reverse⟩

/-! ## Errors and slices -/

/-- Go `error` values, as far as the collectors produce or forward them. -/
inductive GoError where
  /-- The error `bufio.ErrTooLong` ("token too long"). -/
  | ErrTooLong
  /-- An error reported by running an external command. -/
  | exec (msg : String)
  /-- The error built by `fmt.Errorf(msg + "%w", err)`. -/
  | wrap (msg : String) (err : GoError)
  deriving DecidableEq, Repr

/-- A Go slice value: the nil slice, or an allocated slice with its elements. -/
inductive Slice (α : Type) where
  /-- The nil slice, the zero value of a slice variable. -/
  | nil
  /-- An allocated slice. -/
  | alloc (elems : List α)
  deriving DecidableEq, Repr

/-- The elements of a slice. -/
def Slice.toList {α : Type} : Slice α → List α
  | .nil => []
  | .alloc xs => xs

/-- The built-in `append(s, x)`: the result is allocated, also when `s` is nil. -/
def Slice.append {α : Type} (s : Slice α) (x : α) : Slice α := .alloc (s.toList ++ [x])

/-- The comparison `s == nil`. -/
def Slice.isNil {α : Type} : Slice α → Bool
  | .nil => true
  | .alloc _ => false

/-! ## Package `bufio`: a `Scanner` with the default split function `ScanLines` -/

/-- The constant `bufio.MaxScanTokenSize`. -/
def MaxScanTokenSize : Nat := 64 * 1024

/-- Length in bytes of the UTF-8 encoding. -/
def utf8Len : List Char → Nat
  | [] => 0
  | c :: cs => c.utf8Size + utf8Len cs

/-- The helper `dropCR` of `bufio`: drop one trailing carriage return. -/
def dropCR (l : List Char) : List Char :=
  match l.reverse with
  | c :: r => if c.toNat = 13 then r.reverse else l
  | [] => l

/-- The newline-separated segments of a text, carriage returns included; `acc` is the
segment being read, reversed. A final segment that is empty is no token. -/
def splitTokens : List Char → List Char → List (List Char)
  | [], acc => if acc.isEmpty then [] else [acc.reverse]
  | c :: cs, acc =>
    if c.toNat = 10 then acc.reverse :: splitTokens cs [] else splitTokens cs (c :: acc)

/-- All the lines of a text, as `ScanLines` cuts them. -/
def textLines (text : String) : List String :=
  (splitTokens text.data []).map (fun t => String.mk (dropCR t))

/-- What a loop `for scanner.Scan() { ... scanner.Text() ... }` sees: the lines delivered, and
what `scanner.Err()` returns afterwards. -/
structure Scanned where
  /-- The successive values of `scanner.Text()`. -/
  lines : List String
  /-- The value of `scanner.Err()` after the loop. -/
  err : Option GoError
  deriving DecidableEq, Repr

/-- Deliver the segments in order; a segment that fills the buffer (`MaxScanTokenSize` bytes
before its newline) stops the scan with `ErrTooLong`. -/
def scanTokens : List (List Char) → Scanned
  | [] => ⟨[], none⟩
  | t :: ts =>
    if MaxScanTokenSize ≤ utf8Len t then ⟨[], some .ErrTooLong⟩
    else ⟨String.mk (dropCR t) :: (scanTokens ts).lines, (scanTokens ts).err⟩

/-- The run of `bufio.NewScanner(strings.NewReader(text))` to its end. -/
def scan (text : String) : Scanned := scanTokens (splitTokens text.data [])

/-! ## Package `time` -/

/-- A `time.Time`, represented by its wall-clock reading and the offset of its zone. -/
structure Time where
  /-- The year. -/
  year : Int
  /-- The month, 1 to 12. -/
  month : Nat
  /-- The day of the month. -/
  day : Nat
  /-- The hour. -/
  hour : Nat
  /-- The minute. -/
  minute : Nat
  /-- The second. -/
  second : Nat
  /-- The nanosecond. -/
  nsec : Nat
  /-- Seconds east of UTC of the zone the reading is in. -/
  offset : Int
  deriving DecidableEq, Repr

/-- The zero `Time`: January 1, year 1, 00:00:00 UTC. -/
def Time.zero : Time := ⟨1, 1, 1, 0, 0, 0, 0, 0⟩

/-- The helper `isLeap` of `time`. -/
def isLeap (year : Int) : Bool :=
  decide (year % 4 = 0) && (decide (year % 100 ≠ 0) || decide (year % 400 = 0))

/-- The helper `daysIn` of `time`: the number of days of a month. -/
def daysIn (month : Nat) (year : Int) : Nat :=
  if month = 2 then (if isLeap year then 29 else 28)
  else if month = 4 ∨ month = 6 ∨ month = 9 ∨ month = 11 then 30
  else 31

/-- The table `daysBefore` of `time`: entry `m` counts the days of a non-leap year before
the first day of month `m + 1`. -/
def daysBefore : List Nat := [0, 31, 59, 90, 120, 151, 181, 212, 243, 273, 304, 334, 365]

/-- Days from January 1 of year 1 to January 1 of `year` (negative before year 1). -/
def daysSinceYearOne (year : Int) : Int :=
  365 * (year - 1) + Int.fdiv (year - 1) 4 - Int.fdiv (year - 1) 100 + Int.fdiv (year - 1) 400

/-- Seconds from January 1, year 1, 00:00:00 UTC to the instant of a time. -/
def Time.absSeconds (t : Time) : Int :=
  (daysSinceYearOne t.year + daysBefore.getD (t.month - 1) 0 +
      (if isLeap t.year ∧ 3 ≤ t.month then 1 else 0) + ((t.day : Int) - 1)) * 86400 +
    t.hour * 3600 + t.minute * 60 + t.second - t.offset

/-- The method `Time.IsZero`: the instant is January 1, year 1, 00:00:00 UTC. -/
def Time.IsZero (t : Time) : Bool := decide (t.absSeconds = 0) && decide (t.nsec = 0)

/-- Value of a decimal digit. -/
def digitVal (c : Char) : Nat := c.toNat - 48

/-- Value of a string of decimal digits. -/
def digitsVal (l : List Char) : Nat := l.foldl (fun n c => n * 10 + digitVal c) 0

/-- The helper `getnum` of `time`: a one- or two-digit number; `fixed` demands two digits. -/
def getnum (s : List Char) (fixed : Bool) : Option (Nat × List Char) :=
  match s with
  | [] => none
  | a :: rest =>
    if !isDigit a then none
    else
      match rest with
      | [] => if fixed then none else some (digitVal a, [])
      | b :: rest2 =>
        if isDigit b then some (digitVal a * 10 + digitVal b, rest2)
        else if fixed then none
        else some (digitVal a, rest)

/-- The helper `skip` of `time` for one literal layout character that is not a space. -/
def skipChar (c : Char) (value : List Char) : Option (List Char) :=
  match value with
  | [] => none
  | v :: vs => if v = c then some vs else none

/-- The helper `skip` of `time` for a space of the layout: the value is at its end or goes
on with a space, and its leading spaces are cut. -/
def skipSpace (value : List Char) : Option (List Char) :=
  match value with
  | [] => some []
  | v :: vs => if v = ' ' then some (vs.dropWhile (fun c => c = ' ')) else none

/-- The layout element `2006`: four digits. -/
def getYear (value : List Char) : Option (Int × List Char) :=
  match value with
  | a :: b :: c :: d :: rest =>
    if isDigit a && isDigit b && isDigit c && isDigit d then
      some ((digitsVal [a, b, c, d] : Nat), rest)
    else none
  | _ => none

/-- The layout element `.999999`: an optional fraction of any number of digits, of which
nine count. The result is in nanoseconds. -/
def getFrac (value : List Char) : Nat × List Char :=
  match value with
  | p :: d :: rest =>
    if (p = '.' ∨ p = ',') ∧ isDigit d then
      let ds := (d :: rest).takeWhile isDigit
      let kept := ds.take 9
      (digitsVal kept * 10 ^ (9 - kept.length), (d :: rest).dropWhile isDigit)
    else (0, value)
  | _ => (0, value)

/-- The layout element `-0700`: a sign and four digits, the hours at most 24 and the minutes at
most 60 (Go 1.20); the result is in seconds. -/
def getNumTZ (value : List Char) : Option (Int × List Char) :=
  match value with
  | sg :: h1 :: h2 :: m1 :: m2 :: rest =>
    match getnum [h1, h2] true, getnum [m1, m2] true with
    | some (hr, _), some (mm, _) =>
      if 24 < hr ∨ 60 < mm then none
      else if sg = '+' then some ((((hr * 60 + mm) * 60 : Nat) : Int), rest)
      else if sg = '-' then some (-(((hr * 60 + mm) * 60 : Nat) : Int), rest)
      else none
    | _, _ => none
  | _ => none

/-- The table `shortMonthNames` of `time`. -/
def shortMonthNames : List String :=
  ["Jan", "Feb", "Mar", "Apr", "May", "Jun", "Jul", "Aug", "Sep", "Oct", "Nov", "Dec"]

/-- The helper `match` of `time`: equality of two characters up to ASCII letter case. -/
def matchChar (c1 c2 : Char) : Bool :=
  decide (c1 = c2) ||
    (decide (c1.toNat ||| 32 = c2.toNat ||| 32) && decide (c1.toNat < 128) &&
      decide (97 ≤ c1.toNat ||| 32) && decide (c1.toNat ||| 32 ≤ 122))

/-- Strip a name from the front of the value, up to letter case. -/
def stripName : List Char → List Char → Option (List Char)
  | [], value => some value
  | _ :: _, [] => none
  | n :: ns, v :: vs => if matchChar v n then stripName ns vs else none

/-- The helper `lookup` of `time`: the first name of the table the value starts with, as its
index, counted from `i`. -/
def lookup (tab : List String) (value : List Char) (i : Nat) : Option (Nat × List Char) :=
  match tab with
  | [] => none
  | name :: more =>
    match stripName name.data value with
    | some rest => some (i, rest)
    | none => lookup more value (i + 1)

/-- The layout elements `15:04:05`: hour (one or two digits), minute and second (two digits
each), each in its range. -/
def getClock (value : List Char) : Option ((Nat × Nat × Nat) × List Char) :=
  (getnum value false).bind fun (hour, v) =>
  if 24 ≤ hour then none else
  (skipChar ':' v).bind fun v =>
  (getnum v true).bind fun (minute, v) =>
  if 60 ≤ minute then none else
  (skipChar ':' v).bind fun v =>
  (getnum v true).bind fun (second, v) =>
  if 60 ≤ second then none else
  some ((hour, minute, second), v)

/-- The layout elements `2006-01-02`: year (four digits), month (two digits, in its range) and
day (two digits, validated against the month at the end of the parse). -/
def getDate (value : List Char) : Option ((Int × Nat × Nat) × List Char) :=
  (getYear value).bind fun (year, v) =>
  (skipChar '-' v).bind fun v =>
  (getnum v true).bind fun (month, v) =>
  if month = 0 ∨ 12 < month then none else
  (skipChar '-' v).bind fun v =>
  (getnum v true).bind fun (day, v) =>
  some ((year, month, day), v)

/-- The function `time.Parse` at the layout `2006-01-02 15:04:05.999999-0700`; `none` is a
parse error. -/
def parseLogTime (value : String) : Option Time :=
  (getDate value.data).bind fun ((year, month, day), v) =>
  (skipSpace v).bind fun v =>
  (getClock v).bind fun ((hour, minute, second), v) =>
  (getNumTZ (getFrac v).2).bind fun (offset, rest) =>
  if !rest.isEmpty then none
  else if day < 1 ∨ daysIn month year < day then none
  else some ⟨year, month, day, hour, minute, second, (getFrac v).1, offset⟩

/-- The function `time.Parse` at the layout `Jan 02 15:04:05`; `none` is a parse error. The
year of the result is 0 and its zone is UTC. A fraction after the seconds is accepted though
the layout has none. -/
def parseJournalTime (value : String) : Option Time :=
  (lookup shortMonthNames value.data 0).bind fun (m, v) =>
  (skipSpace v).bind fun v =>
  (getnum v true).bind fun (day, v) =>
  (skipSpace v).bind fun v =>
  (getClock v).bind fun ((hour, minute, second), v) =>
  if !(getFrac v).2.isEmpty then none
  else if day < 1 ∨ daysIn (m + 1) 0 < day then none
  else some ⟨0, m + 1, day, hour, minute, second, (getFrac v).1, 0⟩

/-- Conversion to `uint64`: the value modulo `2^64`. -/
def u64 (x : Int) : Int := x % 18446744073709551616

/-- Conversion to `int64`: the value modulo `2^64`, from `-2^63` up. -/
def i64 (x : Int) : Int :=
  (x + 9223372036854775808) % 18446744073709551616 - 9223372036854775808

/-- The constant `absoluteZeroYear` of `time`. -/
def absoluteZeroYear : Int := -292277022399

/-- The constant `unixToInternal + internalToAbsolute` of `time`: seconds from the absolute
epoch to the Unix epoch. -/
def unixToAbsolute : Int := 9223372028715321600

/-- What `(*Location).lookup` returns for a time: the zone offset in force, in seconds east of
UTC, and the Unix times between which it is in force. -/
structure ZoneSpan where
  /-- Seconds east of UTC. -/
  offset : Int
  /-- The Unix time at which the zone comes into force. -/
  start : Int
  /-- The Unix time at which the zone ends. -/
  stop : Int
  deriving DecidableEq, Repr

/-- A `*time.Location`, given by its method `lookup` on Unix times. -/
structure Location where
  /-- The zone in force at a Unix time. -/
  lookup : Int → ZoneSpan

/-- The location `time.UTC`. -/
def UTC : Location := ⟨fun _ => ⟨0, -9223372036854775808, 9223372036854775807⟩⟩

/-- The helper `daysSinceEpoch` of `time`: days from the absolute epoch to January 1 of a
year, by cycles of 400, 100 and 4 years, in `uint64`. -/
def daysSinceEpoch (year : Int) : Int :=
  let y := u64 (year - absoluteZeroYear)
  let n := y / 400
  let y := y - 400 * n
  let d := u64 (146097 * n)
  let n := y / 100
  let y := y - 100 * n
  let d := u64 (d + 36524 * n)
  let n := y / 4
  let y := y - 4 * n
  let d := u64 (d + 1461 * n)
  u64 (d + 365 * y)

/-- The first half of the helper `absDate` of `time`: the year and the day of the year,
counted from 0, of an absolute time in seconds. -/
def absYearDay (abs : Int) : Int × Int :=
  let d := abs / 86400
  let n := d / 146097
  let y := 400 * n
  let d := d - 146097 * n
  let n := d / 36524
  let n := n - n / 4
  let y := y + 100 * n
  let d := d - 36524 * n
  let n := d / 1461
  let y := y + 4 * n
  let d := d - 1461 * n
  let n := d / 365
  let n := n - n / 4
  let y := y + n
  let d := d - 365 * n
  (i64 (i64 y + absoluteZeroYear), d)

/-- The second half of the helper `absDate` of `time`: the month and the day of the month of a
day of the year. -/
def monthDay (year yday : Int) : Nat × Nat :=
  if isLeap year ∧ yday = 59 then (2, 29)
  else
    let day := if isLeap year ∧ 59 < yday then yday - 1 else yday
    let month := (day / 31).toNat
    let stop : Int := daysBefore.getD (month + 1) 0
    if stop ≤ day then (month + 2, (day - stop + 1).toNat)
    else (month + 1, (day - daysBefore.getD month 0 + 1).toNat)

/-- The first half of `time.Date`: the Unix time of a wall-clock reading taken as UTC, computed
in `uint64` as `time.Date` does, for a month from 1 to 12 and a time of day in range, as a
parsed time has them. -/
def dateUnix (year : Int) (month day hour minute second : Nat) : Int :=
  let d := daysSinceEpoch year
  let d := u64 (d + daysBefore.getD (month - 1) 0)
  let d := if isLeap year ∧ 3 ≤ month then u64 (d + 1) else d
  let d := u64 (d + ((day : Int) - 1))
  let abs := u64 (d * 86400)
  let abs := u64 (abs + (hour * 3600 + minute * 60 + second : Nat))
  i64 (abs - unixToAbsolute)

/-- What the accessors of a `time.Time` return for the Unix time `unix` in a location: the date
and the clock of `unix` shifted by the offset in force at `unix`. -/
def Time.ofUnix (unix : Int) (nsec : Nat) (loc : Location) : Time :=
  let offset := (loc.lookup unix).offset
  let abs := u64 (unix + offset + unixToAbsolute)
  let yd := absYearDay abs
  let md := monthDay yd.1 yd.2
  let s := abs % 86400
  ⟨yd.1, md.1, md.2, (s / 3600).toNat, (s % 3600 / 60).toNat, (s % 60).toNat, nsec, offset⟩

/-- The function `time.Date`, for a month from 1 to 12 and a time of day in range: the
wall-clock reading is taken as UTC, and moved by the offset the location has there, or, if
that offset is not in force at the time so found, by the offset in force at that time. -/
def Date (year : Int) (month day hour minute second nsec : Nat) (loc : Location) : Time :=
  let unix := dateUnix year month day hour minute second
  let span := loc.lookup unix
  let unix :=
    if span.offset ≠ 0 then
      let utc := i64 (unix - span.offset)
      if utc < span.start ∨ span.stop ≤ utc then i64 (unix - (loc.lookup utc).offset)
      else i64 (unix - span.offset)
    else unix
  Time.ofUnix unix nsec loc

/-- Decimal digits of a number, at least `width` of them. -/
def padInt (n width : Nat) : List Char :=
  let ds := Nat.toDigits 10 n
  List.replicate (width - ds.length) '0' ++ ds

/-- The method `Time.Format` at the layout `time.RFC3339`. -/
def Time.FormatRFC3339 (t : Time) : String :=
  let year := (if t.year < 0 then ['-'] else []) ++ padInt t.year.natAbs 4
  let zone : Int := Int.tdiv t.offset 60
  let tz :=
    if t.offset = 0 then ['Z']
    else (if zone < 0 then ['-'] else ['+']) ++ padInt (zone.natAbs / 60) 2 ++ [':'] ++
      padInt (zone.natAbs % 60) 2
  ⟨year ++ ['-'] ++ padInt t.month 2 ++ ['-'] ++ padInt t.day 2 ++ ['T'] ++ padInt t.hour 2 ++
    [':'] ++ padInt t.minute 2 ++ [':'] ++ padInt t.second 2 ++ tz⟩

/-! ## The record (`violation.go`) -/

/-- A sandbox violation event. -/
structure Violation where
  /-- When the event happened. -/
  Timestamp : Time
  /-- The process that was denied. -/
  ProcessName : String
  /-- Its process id, as text. -/
  ProcessID : String
  /-- The operation denied. -/
  Operation : String
  /-- The path the operation was attempted on. -/
  TargetPath : String
  /-- The denial code. -/
  DenyCode : String
  /-- The log line the record was parsed from. -/
  RawLine : String
  deriving DecidableEq, Repr

/-! ## The macOS collector (`collector_darwin.go`) -/

namespace Darwin

/-- The function `parseViolation`: parse one line of the unified log. -/
def parseViolation (now : Time) (line : String) : Option Violation :=
  let tsMatch := timestampPattern.FindStringSubmatch line
  let timestamp : Time :=
    if 1 < tsMatch.length then
      match parseLogTime (tsMatch.getD 1 "") with
      | some t => t
      | none => Time.zero
    else Time.zero
  let timestamp := if timestamp.IsZero then now else timestamp
  let submatches := sandboxPattern.FindStringSubmatch line
  if submatches.length ≠ 6 then none
  else
    some
      { Timestamp := timestamp
        ProcessName := submatches.getD 1 ""
        ProcessID := submatches.getD 2 ""
        DenyCode := submatches.getD 3 ""
        Operation := submatches.getD 4 ""
        TargetPath := strings.TrimSpace (submatches.getD 5 "")
        RawLine := line }

/-- One turn of the loop of `parseLogOutput`. -/
def parseLogStep (now : Time) (violations : Slice Violation) (line : String) :
    Slice Violation :=
  if !strings.Contains line "Sandbox:" then violations
  else
    match parseViolation now line with
    | some violation => violations.append violation
    | none => violations

/-- The function `parseLogOutput`: the violations of a text, and the error. -/
def parseLogOutput (now : Time) (output : String) : Slice Violation × Option GoError :=
  let scanner := scan output
  let violations := scanner.lines.foldl (parseLogStep now) Slice.nil
  match scanner.err with
  | some err => (violations, some (.wrap "error scanning log output: " err))
  | none => (violations, none)

end Darwin

/-! ## The Linux collector (`collector_linux.go`) -/

namespace Linux

/-- The function `parseViolation`: parse one line of the journal. `Local` is the location
`time.Local` of the host. -/
def parseViolation (tbl : Char → Char) (Local : Location) (now : Time) (line : String)
    (year : Int) : Option Violation :=
  let submatches := journalPattern.FindStringSubmatch line
  if submatches.length ≠ 5 then none
  else
    let timestampStr := submatches.getD 1 ""
    let processName := submatches.getD 2 ""
    let processID := submatches.getD 3 ""
    let message := submatches.getD 4 ""
    if !strings.Contains (strings.ToLower tbl processName) "bwrap" &&
        !strings.Contains (strings.ToLower tbl message) "bubblewrap" then none
    else
      let timestamp : Time :=
        match parseJournalTime timestampStr with
        | none => now
        | some t => Date year t.month t.day t.hour t.minute t.second 0 Local
      let bwrapMatches := bwrapPattern.FindStringSubmatch message
      let operation := if 2 < bwrapMatches.length then bwrapMatches.getD 1 "" else "unknown"
      let targetPath := if 2 < bwrapMatches.length then bwrapMatches.getD 2 "" else ""
      some
        { Timestamp := timestamp
          ProcessName := processName
          ProcessID := processID
          Operation := operation
          TargetPath := targetPath
          DenyCode := "EPERM"
          RawLine := line }

/-- One turn of the loop of `parseJournalOutput`. -/
def parseJournalStep (tbl : Char → Char) (Local : Location) (now : Time)
    (violations : Slice Violation) (line : String) : Slice Violation :=
  let lineLower := strings.ToLower tbl line
  if !strings.Contains lineLower "bwrap" && !strings.Contains lineLower "bubblewrap" &&
      !strings.Contains lineLower "permission denied" then violations
  else
    match parseViolation tbl Local now line now.year with
    | some violation => violations.append violation
    | none => violations

/-- The function `parseJournalOutput`: the violations of a text, and the error. -/
def parseJournalOutput (tbl : Char → Char) (Local : Location) (now : Time) (output : String) :
    Slice Violation × Option GoError :=
  let scanner := scan output
  let violations := scanner.lines.foldl (parseJournalStep tbl Local now) Slice.nil
  match scanner.err with
  | some err => (violations, some (.wrap "error scanning journal output: " err))
  | none => (violations, none)

/-- An external command: the program and its arguments. -/
structure Cmd where
  /-- The program. -/
  name : String
  /-- The arguments. -/
  args : List String
  deriving DecidableEq, Repr

/-- The result of a collection, with the commands that were run on the way, in order. -/
structure Collected where
  /-- The violations returned. -/
  violations : Slice Violation
  /-- The error returned. -/
  err : Option GoError
  /-- The commands run. -/
  ran : List Cmd

/-- The method `LinuxCollector.collectFromDmesg`. `output` is `cmd.Output()`: what running a
command gives, its standard output or an error. -/
def collectFromDmesg (output : Cmd → Except GoError String) (tbl : Char → Char)
    (Local : Location) (now : Time) (ran : List Cmd) : Collected :=
  let cmd : Cmd := ⟨"dmesg", ["-T"]⟩
  match output cmd with
  | .error err => ⟨Slice.nil, some (.wrap "failed to execute dmesg: " err), ran ++ [cmd]⟩
  | .ok out =>
    let r := parseJournalOutput tbl Local now out
    ⟨r.1, r.2, ran ++ [cmd]⟩

/-- The method `LinuxCollector.CollectViolations`. `sinceStr` is `formatDuration(since)`, a
rendering of a floating-point number that is left outside. -/
def CollectViolations (output : Cmd → Except GoError String) (tbl : Char → Char)
    (Local : Location) (now : Time) (sinceStr : String) : Collected :=
  let cmd : Cmd := ⟨"journalctl", ["--since", sinceStr, "--no-pager", "-o", "short"]⟩
  match output cmd with
  | .error _ => collectFromDmesg output tbl Local now [cmd]
  | .ok out =>
    let r := parseJournalOutput tbl Local now out
    ⟨r.1, r.2, [cmd]⟩

end Linux

/-! ## Inputs of the examples -/

/-- The macOS line of the example. -/
def darwinLine : String :=
  "2025-11-03 16:25:43.448666+0900 localhost kernel[0]: (Sandbox) Sandbox: cat(13276) deny(1) file-read-data /Users/x/.ssh/config"

/-- The journal line of the example. -/
def journalLine : String :=
  "Nov 03 16:25:43 host bwrap[12345]: Permission denied: /path/to/file"

/-- The command of the primary reader. -/
def journalctlCmd (sinceStr : String) : Linux.Cmd :=
  ⟨"journalctl", ["--since", sinceStr, "--no-pager", "-o", "short"]⟩

/-- The command of the fallback reader. -/
def dmesgCmd : Linux.Cmd := ⟨"dmesg", ["-T"]⟩

/-- An environment in which both readers fail. -/
def bothFail : Linux.Cmd → Except GoError String :=
  fun cmd => if cmd.name = "journalctl" then .error (.exec "journalctl: exit status 1")
    else .error (.exec "dmesg: exit status 1")

/-- A macOS line with an event body and no leading timestamp. -/
def bodyOnlyLine : String :=
  "Sandbox: cat(13276) deny(1) file-read-data /Users/x/.ssh/config"

/-- A journal line of another process whose message names `bwrap`. -/
def kernelLine : String :=
  "Nov 03 16:25:43 host kernel[1]: bwrap: Permission denied: /path/to/file"

/-- A text of one line of 65536 opening brackets. -/
def longBracketText : String := String.mk (List.replicate 65536 '[')

/-- A text of two `dmesg -T` lines. -/
def dmesgText : String :=
  "[Mon Nov  3 16:25:43 2025] bwrap: Permission denied: /path/to/file\n[Mon Nov  3 16:25:44 2025] audit: type=1400\n"

/-- A text of three lines, the second of which is no violation. -/
def mixedText : String :=
  "Nov 03 16:25:43 host bwrap[12345]: Permission denied: /path/to/file\r\nnoise\n2025-11-03 16:25:43.448666+0900 localhost kernel[0]: (Sandbox) Sandbox: cat(13276) deny(1) file-read-data /Users/x/.ssh/config"

theorem stripLit_sound (fold : Bool) : ∀ (s rest rest' : List Char),
    stripLit fold s rest = some rest' →
    ∃ mid, rest = mid ++ rest' ∧ mid.length = s.length := by
  intro s
  induction s with
  | nil =>
    intro rest rest' h
    simp [stripLit] at h
    exact ⟨[], by simp [h]⟩
  | cons p ps ih =>
    intro rest rest' h
    cases rest with
    | nil => simp [stripLit] at h
    | cons t ts =>
      simp only [stripLit] at h
      split at h
      · obtain ⟨mid, h1, h2⟩ := ih ts rest' h
        exact ⟨t :: mid, by simp [h1], by simp [h2]⟩
      · exact absurd h (by simp)

theorem stripLit_exact : ∀ (s rest rest' : List Char),
    stripLit false s rest = some rest' → rest = s ++ rest' := by
  intro s
  induction s with
  | nil =>
    intro rest rest' h
    simp [stripLit] at h
    simp [h]
  | cons p ps ih =>
    intro rest rest' h
    cases rest with
    | nil => simp [stripLit] at h
    | cons t ts =>
      simp only [stripLit] at h
      split at h
      · rename_i hc
        have hpt : p = t := by simpa [litCharEq] using hc
        rw [ih ts rest' h, hpt]
        rfl
      · exact absurd h (by simp)

theorem starGreedy_sound {R : Type} (c : Cls) (k : Nat → List Char → Option R) :
    ∀ (rest : List Char) (pos : Nat) (r : R), starGreedy c k pos rest = some r →
    ∃ mid rest', rest = mid ++ rest' ∧ k (pos + mid.length) rest' = some r := by
  intro rest
  induction rest with
  | nil =>
    intro pos r h
    exact ⟨[], [], rfl, by simpa [starGreedy] using h⟩
  | cons x xs ih =>
    intro pos r h
    simp only [starGreedy] at h
    split at h
    · split at h
      · rename_i r' hr
        obtain ⟨mid, rest', h1, h2⟩ := ih (pos + 1) r' hr
        refine ⟨x :: mid, rest', by simp [h1], ?_⟩
        simp only [List.length_cons]
        rw [show pos + (mid.length + 1) = pos + 1 + mid.length by omega, h2, ← h]
      · exact ⟨[], x :: xs, rfl, by simpa using h⟩
    · exact ⟨[], x :: xs, rfl, by simpa using h⟩

theorem starLazy_sound {R : Type} (c : Cls) (k : Nat → List Char → Option R) :
    ∀ (rest : List Char) (pos : Nat) (r : R), starLazy c k pos rest = some r →
    ∃ mid rest', rest = mid ++ rest' ∧ k (pos + mid.length) rest' = some r := by
  intro rest
  induction rest with
  | nil =>
    intro pos r h
    exact ⟨[], [], rfl, by simpa [starLazy] using h⟩
  | cons x xs ih =>
    intro pos r h
    simp only [starLazy] at h
    split at h
    · rename_i r' hr
      exact ⟨[], x :: xs, rfl, by simpa [hr] using h⟩
    · split at h
      · obtain ⟨mid, rest', h1, h2⟩ := ih (pos + 1) r h
        refine ⟨x :: mid, rest', by simp [h1], ?_⟩
        simp only [List.length_cons]
        rw [show pos + (mid.length + 1) = pos + 1 + mid.length by omega, h2]
      · exact absurd h (by simp)

theorem run_sound {R : Type} (input : List Char) (r : Re) :
    ∀ (st : MState) (k : MState → Option R) (res : R),
      (∃ pre, input = pre ++ st.rest) → (∀ c ∈ st.caps, c <:+: input) →
      r.run st k = some res →
      ∃ st' : MState, (∃ mid, st.rest = mid ++ st'.rest ∧ st'.pos = st.pos + mid.length) ∧
        (∀ c ∈ st'.caps, c <:+: input) ∧ st'.caps.length = st.caps.length ∧
        k st' = some res := by
  induction r with
  | bol =>
    intro st k res _ hc h
    simp only [Re.run] at h
    split at h
    · exact ⟨st, ⟨[], rfl, rfl⟩, hc, rfl, h⟩
    · exact absurd h (by simp)
  | eol =>
    intro st k res _ hc h
    simp only [Re.run] at h
    split at h
    · exact ⟨st, ⟨[], rfl, rfl⟩, hc, rfl, h⟩
    · exact absurd h (by simp)
  | cls c =>
    intro st k res _ hc h
    simp only [Re.run] at h
    split at h
    · exact absurd h (by simp)
    · rename_i x xs hx
      split at h
      · exact ⟨⟨st.pos + 1, xs, st.caps⟩, ⟨[x], by simp [hx], rfl⟩, hc, rfl, h⟩
      · exact absurd h (by simp)
  | lit s fold =>
    intro st k res _ hc h
    simp only [Re.run] at h
    split at h
    · rename_i rest hs
      obtain ⟨mid, h1, h2⟩ := stripLit_sound fold s st.rest rest hs
      exact ⟨⟨st.pos + s.length, rest, st.caps⟩, ⟨mid, h1, by simp [h2]⟩, hc, rfl, h⟩
    · exact absurd h (by simp)
  | star c greedy =>
    intro st k res _ hc h
    cases greedy with
    | true =>
      simp only [Re.run] at h
      obtain ⟨mid, rest', h1, h2⟩ := starGreedy_sound c _ st.rest st.pos res h
      exact ⟨⟨st.pos + mid.length, rest', st.caps⟩, ⟨mid, h1, rfl⟩, hc, rfl, h2⟩
    | false =>
      simp only [Re.run] at h
      obtain ⟨mid, rest', h1, h2⟩ := starLazy_sound c _ st.rest st.pos res h
      exact ⟨⟨st.pos + mid.length, rest', st.caps⟩, ⟨mid, h1, rfl⟩, hc, rfl, h2⟩
  | seq a b iha ihb =>
    intro st k res hp hc h
    simp only [Re.run] at h
    obtain ⟨st1, ⟨mid1, h1, h1p⟩, hc1, hl1, hk1⟩ := iha st _ res hp hc h
    obtain ⟨pre, hpre⟩ := hp
    have hp1 : ∃ pre1, input = pre1 ++ st1.rest := ⟨pre ++ mid1, by rw [hpre, h1]; simp⟩
    obtain ⟨st2, ⟨mid2, h2, h2p⟩, hc2, hl2, hk2⟩ := ihb st1 k res hp1 hc1 hk1
    refine ⟨st2, ⟨mid1 ++ mid2, by rw [h1, h2]; simp, by rw [h2p, h1p]; simp; omega⟩, hc2, ?_, hk2⟩
    rw [hl2, hl1]
  | alt a b iha ihb =>
    intro st k res hp hc h
    simp only [Re.run] at h
    split at h
    · rename_i r hr
      rw [← h]
      exact iha st k r hp hc hr
    · exact ihb st k res hp hc h
  | group i a iha =>
    intro st k res hp hc h
    simp only [Re.run] at h
    obtain ⟨st1, ⟨mid, h1, h1p⟩, hc1, hl1, hk1⟩ := iha st _ res hp hc h
    obtain ⟨pre, hpre⟩ := hp
    have htake : st.rest.take (st1.pos - st.pos) = mid := by
      rw [h1p, h1]; simp
    rw [htake] at hk1
    refine ⟨⟨st1.pos, st1.rest, st1.caps.set i mid⟩, ⟨mid, h1, h1p⟩, ?_, ?_, hk1⟩
    · intro c hcm
      rcases List.mem_or_eq_of_mem_set hcm with hm | he
      · exact hc1 c hm
      · rw [he, hpre, h1]
        exact ⟨pre, st1.rest, by simp⟩
    · simp [hl1]

theorem search_sound (p : Regexp) (input : List Char) :
    ∀ (rest : List Char) (pos : Nat) (caps : List (List Char)),
      (∃ pre, input = pre ++ rest) → p.search pos rest = some caps →
      caps.length = p.numSubexp + 1 ∧ ∀ c ∈ caps, c <:+: input := by
  have key : ∀ (rest : List Char) (pos : Nat) (caps : List (List Char)),
      (∃ pre, input = pre ++ rest) →
      (Re.group 0 p.re).run ⟨pos, rest, List.replicate (p.numSubexp + 1) []⟩
        (fun st => some st.caps) = some caps →
      caps.length = p.numSubexp + 1 ∧ ∀ c ∈ caps, c <:+: input := by
    intro rest pos caps hp h
    have h0 : ∀ c ∈ (MState.mk pos rest (List.replicate (p.numSubexp + 1) [])).caps,
        c <:+: input := by
      intro c hc
      have : c = [] := List.eq_of_mem_replicate hc
      rw [this]
      exact List.nil_infix
    obtain ⟨st', _, hc', hl', hk'⟩ := run_sound input _ _ _ caps hp h0 h
    simp only [Option.some.injEq] at hk'
    subst hk'
    exact ⟨by simpa using hl', hc'⟩
  intro rest
  induction rest with
  | nil =>
    intro pos caps hp h
    simp only [Regexp.search] at h
    exact key [] pos caps hp h
  | cons x xs ih =>
    intro pos caps hp h
    simp only [Regexp.search] at h
    split at h
    · rename_i r hr
      simp only [Option.some.injEq] at h
      subst h
      exact key (x :: xs) pos r hp hr
    · obtain ⟨pre, hpre⟩ := hp
      exact ih (pos + 1) caps ⟨pre ++ [x], by simp [hpre]⟩ h

theorem find_length (p : Regexp) (s : String) :
    p.FindStringSubmatch s = [] ∨ (p.FindStringSubmatch s).length = p.numSubexp + 1 := by
  unfold Regexp.FindStringSubmatch
  cases h : p.search 0 s.data with
  | none => left; rfl
  | some caps =>
    right
    simp [(search_sound p s.data s.data 0 caps ⟨[], rfl⟩ h).1]

theorem find_sub (p : Regexp) (s m : String) (hm : m ∈ p.FindStringSubmatch s) :
    m.data <:+: s.data := by
  unfold Regexp.FindStringSubmatch at hm
  cases h : p.search 0 s.data with
  | none => simp [h] at hm
  | some caps =>
    simp only [h, List.mem_map] at hm
    obtain ⟨c, hc, rfl⟩ := hm
    exact (search_sound p s.data s.data 0 caps ⟨[], rfl⟩ h).2 c hc

/-! ## Properties of the string functions -/

theorem containsChars_iff (sub : List Char) : ∀ s : List Char,
    containsChars s sub = true ↔ sub <:+: s := by
  intro s
  induction s with
  | nil =>
    simp [containsChars, List.isEmpty_iff]
  | cons c t ih =>
    simp only [containsChars, Bool.or_eq_true, ih, List.isPrefixOf_iff_prefix]
    rw [List.infix_cons_iff]

theorem contains_mono (a b sub : String) (hab : a.data <:+: b.data)
    (h : strings.Contains a sub = true) : strings.Contains b sub = true := by
  unfold strings.Contains at *
  rw [containsChars_iff] at *
  exact List.IsInfix.trans h hab

theorem toLower_sub (tbl : Char → Char) (a b : String) (hab : a.data <:+: b.data) :
    (strings.ToLower tbl a).data <:+: (strings.ToLower tbl b).data := by
  obtain ⟨p, q, h⟩ := hab
  refine ⟨p.map (unicode.ToLower tbl), q.map (unicode.ToLower tbl), ?_⟩
  simp only [strings.ToLower, ← h, List.map_append]

/-! ## Properties of the scanner -/

theorem scanTokens_noerr : ∀ toks : List (List Char),
    (scanTokens toks).err = none →
    (scanTokens toks).lines = toks.map (fun t => String.mk (dropCR t)) := by
  intro toks
  induction toks with
  | nil => intro _; rfl
  | cons t ts ih =>
    intro h
    simp only [scanTokens] at h ⊢
    split at h
    · exact absurd h (by simp)
    · rename_i hlt
      simp only [hlt, if_false, List.map_cons]
      rw [ih h]

theorem scanTokens_lines_sub : ∀ toks : List (List Char),
    (scanTokens toks).lines <+: toks.map (fun t => String.mk (dropCR t)) := by
  intro toks
  induction toks with
  | nil => exact List.prefix_refl _
  | cons t ts ih =>
    simp only [scanTokens]
    split
    · exact List.nil_prefix
    · simp only [List.map_cons]
      exact (List.prefix_cons_inj _).2 ih

theorem scan_lines_of_noerr (text : String) (h : (scan text).err = none) :
    (scan text).lines = textLines text :=
  scanTokens_noerr _ h

theorem scan_lines_mem (text : String) (l : String) (h : l ∈ (scan text).lines) :
    l ∈ textLines text :=
  (scanTokens_lines_sub _).subset h

/-! ## The loops as filters -/

theorem foldl_step_toList {α : Type} (f : String → Option α)
    (step : Slice α → String → Slice α)
    (hsome : ∀ vs l v, f l = some v → step vs l = vs.append v)
    (hnone : ∀ vs l, f l = none → step vs l = vs) :
    ∀ (lines : List String) (init : Slice α),
      (lines.foldl step init).toList = init.toList ++ lines.filterMap f := by
  intro lines
  induction lines with
  | nil => intro init; simp
  | cons l ls ih =>
    intro init
    simp only [List.foldl_cons]
    rw [ih]
    cases hf : f l with
    | none => simp [List.filterMap_cons, hf, hnone init l hf]
    | some v => simp [List.filterMap_cons, hf, hsome init l v hf, Slice.append, Slice.toList]

theorem foldl_step_nil {α : Type} (step : Slice α → String → Slice α)
    (lines : List String) (h : ∀ l ∈ lines, ∀ vs, step vs l = vs) :
    ∀ init, lines.foldl step init = init := by
  induction lines with
  | nil => intro init; rfl
  | cons l ls ih =>
    intro init
    simp only [List.foldl_cons]
    rw [h l (List.mem_cons_self _ _)]
    exact ih (fun l' hl' => h l' (List.mem_cons_of_mem _ hl')) init

/-! ## The line parsers -/

theorem run_lit_head {R : Type} (s : List Char) (r : Re) (st : MState)
    (k : MState → Option R) (res : R)
    (h : (Re.group 0 (Re.seq (Re.lit s false) r)).run st k = some res) :
    s <+: st.rest := by
  simp only [Re.run] at h
  split at h
  · rename_i rest hs
    exact ⟨rest, (stripLit_exact s st.rest rest hs).symm⟩
  · exact absurd h (by simp)

theorem sandbox_search_marker : ∀ (rest : List Char) (pos : Nat) (caps : List (List Char)),
    sandboxPattern.search pos rest = some caps → "Sandbox:".data <:+: rest := by
  intro rest
  induction rest with
  | nil =>
    intro pos caps h
    simp only [Regexp.search] at h
    have := run_lit_head _ _ _ _ _ h
    exact this.isInfix
  | cons x xs ih =>
    intro pos caps h
    simp only [Regexp.search] at h
    split at h
    · rename_i r hr
      exact (run_lit_head _ _ _ _ _ hr).isInfix
    · exact (ih (pos + 1) caps h).trans (List.infix_cons List.infix_rfl)

theorem sandbox_find_marker (line : String)
    (h : sandboxPattern.FindStringSubmatch line ≠ []) :
    strings.Contains line "Sandbox:" = true := by
  unfold strings.Contains
  rw [containsChars_iff]
  unfold Regexp.FindStringSubmatch at h
  cases hs : sandboxPattern.search 0 line.data with
  | none => simp [hs] at h
  | some caps => exact sandbox_search_marker _ _ _ hs

theorem run_bol_pos {R : Type} (r : Re) (pos : Nat) (rest : List Char)
    (caps : List (List Char)) (k : MState → Option R) :
    (Re.group 0 (Re.seq Re.bol r)).run ⟨pos + 1, rest, caps⟩ k = none := by
  simp [Re.run]

theorem journal_search_pos : ∀ (rest : List Char) (pos : Nat),
    journalPattern.search (pos + 1) rest = none := by
  intro rest
  induction rest with
  | nil =>
    intro pos
    simp only [Regexp.search]
    exact run_bol_pos _ _ _ _ _
  | cons x xs ih =>
    intro pos
    simp only [Regexp.search]
    have h : (Re.group 0 journalPattern.re).run
        ⟨pos + 1, x :: xs, List.replicate (journalPattern.numSubexp + 1) []⟩
        (fun st => some st.caps) = none := run_bol_pos _ _ _ _ _
    rw [h]
    exact ih (pos + 1)

theorem journal_search_head (line : List Char)
    (h : ∀ x xs, line = x :: xs → isWord x = false) :
    journalPattern.search 0 line = none := by
  cases line with
  | nil => simp [Regexp.search, journalPattern, Re.cat, Re.run, Re.plus]
  | cons x xs =>
    simp only [Regexp.search]
    rw [journal_search_pos]
    simp [journalPattern, Re.cat, Re.run, Re.plus, Cls.test, h x xs rfl]

theorem journal_find_head (line : String)
    (h : ∀ x xs, line.data = x :: xs → isWord x = false) :
    journalPattern.FindStringSubmatch line = [] := by
  unfold Regexp.FindStringSubmatch
  rw [journal_search_head line.data h]

theorem getD_mem {α : Type} (l : List α) (i : Nat) (d : α) (h : i < l.length) :
    l.getD i d ∈ l := by
  rw [List.getD_eq_getElem l d h]
  exact List.getElem_mem h

theorem darwin_none_of_no_marker (now : Time) (line : String)
    (h : strings.Contains line "Sandbox:" = false) :
    Darwin.parseViolation now line = none := by
  have hm : sandboxPattern.FindStringSubmatch line = [] := by
    by_contra hne
    rw [sandbox_find_marker line hne] at h
    exact absurd h (by simp)
  simp [Darwin.parseViolation, hm]

theorem darwin_isSome_iff (now : Time) (line : String) :
    (Darwin.parseViolation now line).isSome = true ↔
      sandboxPattern.FindStringSubmatch line ≠ [] := by
  rcases find_length sandboxPattern line with h | h
  · simp [Darwin.parseViolation, h]
  · have h6 : (sandboxPattern.FindStringSubmatch line).length = 6 := h
    have hne : sandboxPattern.FindStringSubmatch line ≠ [] := by
      intro h0
      rw [h0] at h6
      exact absurd h6 (by simp)
    simp [Darwin.parseViolation, h6, hne]

theorem darwin_rawLine (now : Time) (line : String) (v : Violation)
    (h : Darwin.parseViolation now line = some v) : v.RawLine = line ∧ line ≠ "" := by
  have hs : sandboxPattern.FindStringSubmatch line ≠ [] :=
    (darwin_isSome_iff now line).1 (by simp [h])
  constructor
  · unfold Darwin.parseViolation at h
    simp only at h
    split at h
    · exact absurd h (by simp)
    · simp only [Option.some.injEq] at h
      rw [← h]
  · intro he
    have hc := sandbox_find_marker line hs
    rw [he] at hc
    exact absurd hc (by decide)

theorem linux_isSome_iff (tbl : Char → Char) (Local : Location) (now : Time)
    (line : String) (year : Int) (hm : journalPattern.FindStringSubmatch line ≠ []) :
    (Linux.parseViolation tbl Local now line year).isSome = true ↔
      (strings.Contains (strings.ToLower tbl ((journalPattern.FindStringSubmatch line).getD 2 ""))
          "bwrap" = true ∨
        strings.Contains (strings.ToLower tbl ((journalPattern.FindStringSubmatch line).getD 4 ""))
          "bubblewrap" = true) := by
  have h5 : (journalPattern.FindStringSubmatch line).length = 5 := by
    rcases find_length journalPattern line with h | h
    · exact absurd h hm
    · exact h
  unfold Linux.parseViolation
  simp only [h5, ne_eq, not_true_eq_false, if_false]
  cases h1 : strings.Contains
      (strings.ToLower tbl ((journalPattern.FindStringSubmatch line).getD 2 "")) "bwrap" <;>
    cases h2 : strings.Contains
      (strings.ToLower tbl ((journalPattern.FindStringSubmatch line).getD 4 "")) "bubblewrap" <;>
    simp

theorem linux_none_of_no_marker (tbl : Char → Char) (Local : Location) (now : Time)
    (line : String) (year : Int)
    (h1 : strings.Contains (strings.ToLower tbl line) "bwrap" = false)
    (h2 : strings.Contains (strings.ToLower tbl line) "bubblewrap" = false) :
    Linux.parseViolation tbl Local now line year = none := by
  by_cases hm : journalPattern.FindStringSubmatch line = []
  · simp [Linux.parseViolation, hm]
  · have h5 : (journalPattern.FindStringSubmatch line).length = 5 := by
      rcases find_length journalPattern line with h | h
      · exact absurd h hm
      · exact h
    have hnone : ¬ (Linux.parseViolation tbl Local now line year).isSome = true := by
      rw [linux_isSome_iff tbl Local now line year hm]
      rintro (hc | hc)
      · have hin := find_sub journalPattern line _
          (getD_mem (journalPattern.FindStringSubmatch line) 2 "" (by omega))
        rw [contains_mono _ _ _ (toLower_sub tbl _ _ hin) hc] at h1
        exact absurd h1 (by simp)
      · have hin := find_sub journalPattern line _
          (getD_mem (journalPattern.FindStringSubmatch line) 4 "" (by omega))
        rw [contains_mono _ _ _ (toLower_sub tbl _ _ hin) hc] at h2
        exact absurd h2 (by simp)
    cases hp : Linux.parseViolation tbl Local now line year with
    | none => rfl
    | some v => simp [hp] at hnone

theorem linux_none_of_head (tbl : Char → Char) (Local : Location) (now : Time)
    (line : String) (year : Int) (h : ∀ x xs, line.data = x :: xs → isWord x = false) :
    Linux.parseViolation tbl Local now line year = none := by
  simp [Linux.parseViolation, journal_find_head line h]

theorem linux_rawLine (tbl : Char → Char) (Local : Location) (now : Time)
    (line : String) (year : Int) (v : Violation)
    (h : Linux.parseViolation tbl Local now line year = some v) :
    v.RawLine = line ∧ line ≠ "" := by
  constructor
  · unfold Linux.parseViolation at h
    simp only at h
    split at h
    · exact absurd h (by simp)
    · split at h
      · exact absurd h (by simp)
      · simp only [Option.some.injEq] at h
        rw [← h]
  · intro he
    rw [linux_none_of_head tbl Local now line year
      (by intro x xs hx; rw [he] at hx; exact absurd hx (by simp))] at h
    exact absurd h (by simp)

theorem parseLogStep_some (now : Time) (vs : Slice Violation) (l : String) (v : Violation)
    (h : Darwin.parseViolation now l = some v) : Darwin.parseLogStep now vs l = vs.append v := by
  have hc : strings.Contains l "Sandbox:" = true := by
    cases hc : strings.Contains l "Sandbox:" with
    | true => rfl
    | false =>
      rw [darwin_none_of_no_marker now l hc] at h
      exact absurd h (by simp)
  simp [Darwin.parseLogStep, hc, h]

theorem parseLogStep_none (now : Time) (vs : Slice Violation) (l : String)
    (h : Darwin.parseViolation now l = none) : Darwin.parseLogStep now vs l = vs := by
  simp [Darwin.parseLogStep, h]

theorem parseJournalStep_some (tbl : Char → Char) (Local : Location) (now : Time)
    (vs : Slice Violation) (l : String) (v : Violation)
    (h : Linux.parseViolation tbl Local now l now.year = some v) :
    Linux.parseJournalStep tbl Local now vs l = vs.append v := by
  cases h1 : strings.Contains (strings.ToLower tbl l) "bwrap" with
  | true => simp [Linux.parseJournalStep, h1, h]
  | false =>
    cases h2 : strings.Contains (strings.ToLower tbl l) "bubblewrap" with
    | true => simp [Linux.parseJournalStep, h2, h]
    | false =>
      rw [linux_none_of_no_marker tbl Local now l now.year h1 h2] at h
      exact absurd h (by simp)

theorem parseJournalStep_none (tbl : Char → Char) (Local : Location) (now : Time)
    (vs : Slice Violation) (l : String)
    (h : Linux.parseViolation tbl Local now l now.year = none) :
    Linux.parseJournalStep tbl Local now vs l = vs := by
  simp [Linux.parseJournalStep, h]

theorem parseLogOutput_fst (now : Time) (output : String) :
    (Darwin.parseLogOutput now output).1 =
      (scan output).lines.foldl (Darwin.parseLogStep now) Slice.nil := by
  unfold Darwin.parseLogOutput
  simp only
  split <;> rfl

theorem parseJournalOutput_fst (tbl : Char → Char) (Local : Location) (now : Time)
    (output : String) :
    (Linux.parseJournalOutput tbl Local now output).1 =
      (scan output).lines.foldl (Linux.parseJournalStep tbl Local now) Slice.nil := by
  unfold Linux.parseJournalOutput
  simp only
  split <;> rfl

theorem parseLogOutput_snd (now : Time) (output : String)
    (h : (scan output).err = none) : (Darwin.parseLogOutput now output).2 = none := by
  unfold Darwin.parseLogOutput
  simp only [h]

theorem parseJournalOutput_snd (tbl : Char → Char) (Local : Location) (now : Time)
    (output : String) (h : (scan output).err = none) :
    (Linux.parseJournalOutput tbl Local now output).2 = none := by
  unfold Linux.parseJournalOutput
  simp only [h]

theorem parseLogOutput_toList (now : Time) (output : String) :
    (Darwin.parseLogOutput now output).1.toList =
      (scan output).lines.filterMap (Darwin.parseViolation now) := by
  rw [parseLogOutput_fst]
  exact foldl_step_toList (Darwin.parseViolation now) (Darwin.parseLogStep now)
    (parseLogStep_some now) (parseLogStep_none now) (scan output).lines Slice.nil

theorem parseJournalOutput_toList (tbl : Char → Char) (Local : Location) (now : Time)
    (output : String) :
    (Linux.parseJournalOutput tbl Local now output).1.toList =
      (scan output).lines.filterMap
        (fun l => Linux.parseViolation tbl Local now l now.year) := by
  rw [parseJournalOutput_fst]
  exact foldl_step_toList (fun l => Linux.parseViolation tbl Local now l now.year)
    (Linux.parseJournalStep tbl Local now)
    (parseJournalStep_some tbl Local now) (parseJournalStep_none tbl Local now)
    (scan output).lines Slice.nil

theorem filterMap_map_key {α β : Type} (f : α → Option β) (g : β → α)
    (hfg : ∀ x v, f x = some v → g v = x) :
    ∀ l : List α, (l.filterMap f).map g = l.filter (fun x => (f x).isSome) := by
  intro l
  induction l with
  | nil => rfl
  | cons x xs ih =>
    cases hf : f x with
    | none => simp [List.filterMap_cons, hf, ih]
    | some v => simp [List.filterMap_cons, hf, ih, hfg x v hf]

/-! ## The examples -/

theorem darwinLine_timestamp : timestampPattern.FindStringSubmatch darwinLine =
    ["2025-11-03 16:25:43.448666+0900", "2025-11-03 16:25:43.448666+0900"] := by decide!

theorem darwinLine_time : parseLogTime "2025-11-03 16:25:43.448666+0900" =
    some ⟨2025, 11, 3, 16, 25, 43, 448666000, 32400⟩ := by decide!

theorem darwinLine_body : sandboxPattern.FindStringSubmatch darwinLine =
    ["Sandbox: cat(13276) deny(1) file-read-data /Users/x/.ssh/config", "cat", "13276", "1",
      "file-read-data", "/Users/x/.ssh/config"] := by decide!

/-- C1: whatever the clock reads, the macOS line parser maps the example line to the Violation
with process `cat`, pid `13276`, deny code `1`, operation `file-read-data`, target
`/Users/x/.ssh/config` and the timestamp 2025-11-03 16:25:43.448666 at offset +09:00, whose
RFC3339 rendering is `2025-11-03T16:25:43+09:00`. -/
theorem darwin_example (now : Time) :
    Darwin.parseViolation now darwinLine =
      some
        { Timestamp := ⟨2025, 11, 3, 16, 25, 43, 448666000, 32400⟩
          ProcessName := "cat"
          ProcessID := "13276"
          Operation := "file-read-data"
          TargetPath := "/Users/x/.ssh/config"
          DenyCode := "1"
          RawLine := darwinLine } ∧
    (⟨2025, 11, 3, 16, 25, 43, 448666000, 32400⟩ : Time).FormatRFC3339 =
      "2025-11-03T16:25:43+09:00" := by
  constructor
  · have hz : (⟨2025, 11, 3, 16, 25, 43, 448666000, 32400⟩ : Time).IsZero = false := by decide!
    have ht : strings.TrimSpace "/Users/x/.ssh/config" = "/Users/x/.ssh/config" := by decide!
    simp [Darwin.parseViolation, darwinLine_timestamp, darwinLine_time, darwinLine_body, hz, ht]
  · decide!

/-- C3: when `journalctl` succeeds, `CollectViolations` runs that command alone and returns
`parseJournalOutput` of its output; when it fails, `dmesg` is run next, and the call returns
`parseJournalOutput` of the output of `dmesg` if that succeeds, and otherwise no violations and
the error of `dmesg` wrapped as `failed to execute dmesg: ...`. -/
theorem fallback_before_failure (output : Linux.Cmd → Except GoError String)
    (tbl : Char → Char) (Local : Location) (now : Time) (sinceStr : String) :
    (∀ out, output (journalctlCmd sinceStr) = .ok out →
      (Linux.CollectViolations output tbl Local now sinceStr).ran =
          [journalctlCmd sinceStr] ∧
        dmesgCmd ∉ (Linux.CollectViolations output tbl Local now sinceStr).ran ∧
        ((Linux.CollectViolations output tbl Local now sinceStr).violations,
          (Linux.CollectViolations output tbl Local now sinceStr).err) =
          Linux.parseJournalOutput tbl Local now out) ∧
    (∀ e, output (journalctlCmd sinceStr) = .error e →
      (Linux.CollectViolations output tbl Local now sinceStr).ran =
          [journalctlCmd sinceStr, dmesgCmd] ∧
        (∀ out, output dmesgCmd = .ok out →
          ((Linux.CollectViolations output tbl Local now sinceStr).violations,
            (Linux.CollectViolations output tbl Local now sinceStr).err) =
            Linux.parseJournalOutput tbl Local now out) ∧
        (∀ e2, output dmesgCmd = .error e2 →
          (Linux.CollectViolations output tbl Local now sinceStr).violations = Slice.nil ∧
            (Linux.CollectViolations output tbl Local now sinceStr).err =
              some (.wrap "failed to execute dmesg: " e2))) := by
  constructor
  · intro out h
    have hr : Linux.CollectViolations output tbl Local now sinceStr =
        ⟨(Linux.parseJournalOutput tbl Local now out).1,
          (Linux.parseJournalOutput tbl Local now out).2, [journalctlCmd sinceStr]⟩ := by
      unfold Linux.CollectViolations
      simp only
      unfold journalctlCmd at h
      rw [h]
      rfl
    rw [hr]
    refine ⟨rfl, ?_, rfl⟩
    simp [journalctlCmd, dmesgCmd]
  · intro e h
    unfold journalctlCmd at h
    refine ⟨?_, ?_, ?_⟩
    · unfold Linux.CollectViolations Linux.collectFromDmesg
      simp only [h]
      cases output ⟨"dmesg", ["-T"]⟩ <;> rfl
    · intro out h2
      unfold dmesgCmd at h2
      unfold Linux.CollectViolations Linux.collectFromDmesg
      simp only [h, h2]
    · intro e2 h2
      unfold dmesgCmd at h2
      unfold Linux.CollectViolations Linux.collectFromDmesg
      simp only [h, h2, and_self]

/-- Both readers fail: `journalctl` and then `dmesg` are run, and the error returned is the one
of `dmesg`, wrapped. -/
theorem fallback_before_failure_witness :
    (Linux.CollectViolations bothFail id UTC Time.zero "1 hours ago").ran =
        [journalctlCmd "1 hours ago", dmesgCmd] ∧
      (Linux.CollectViolations bothFail id UTC Time.zero "1 hours ago").violations = Slice.nil ∧
      (Linux.CollectViolations bothFail id UTC Time.zero "1 hours ago").err =
        some (.wrap "failed to execute dmesg: " (.exec "dmesg: exit status 1")) :=
  have h := (fallback_before_failure bothFail id UTC Time.zero "1 hours ago").2
    (.exec "journalctl: exit status 1") (by rfl)
  ⟨h.1, h.2.2 (.exec "dmesg: exit status 1") (by rfl)⟩

/-! ## The claims on single lines -/

theorem zero_isZero : Time.zero.IsZero = true := by decide!

/-- C5: a line without the substring `Sandbox:` is refused by the macOS line parser, and a
line whose lower-case form contains none of `bwrap`, `bubblewrap`, `permission denied` is
refused by the Linux line parser; so the loops collect exactly what the line parsers accept
among the lines scanned, as if no line had been filtered out beforehand. -/
theorem filter_precision (tbl : Char → Char) (Local : Location) (now : Time) (year : Int)
    (line output : String) :
    (strings.Contains line "Sandbox:" = false → Darwin.parseViolation now line = none) ∧
    (strings.Contains (strings.ToLower tbl line) "bwrap" = false →
      strings.Contains (strings.ToLower tbl line) "bubblewrap" = false →
      strings.Contains (strings.ToLower tbl line) "permission denied" = false →
      Linux.parseViolation tbl Local now line year = none) ∧
    (Darwin.parseLogOutput now output).1.toList =
      (scan output).lines.filterMap (Darwin.parseViolation now) ∧
    (Linux.parseJournalOutput tbl Local now output).1.toList =
      (scan output).lines.filterMap
        (fun l => Linux.parseViolation tbl Local now l now.year) :=
  ⟨darwin_none_of_no_marker now line,
    fun h1 h2 _ => linux_none_of_no_marker tbl Local now line year h1 h2,
    parseLogOutput_toList now output,
    parseJournalOutput_toList tbl Local now output⟩

/-- A journal line of `sshd` has neither marker and is refused by both line parsers. -/
theorem filter_precision_witness :
    Darwin.parseViolation Time.zero "Nov 03 16:25:43 host sshd[1]: session opened" = none ∧
      Linux.parseViolation id UTC Time.zero "Nov 03 16:25:43 host sshd[1]: session opened" 2025 =
        none :=
  ⟨(filter_precision id UTC Time.zero 2025 "Nov 03 16:25:43 host sshd[1]: session opened" "").1
      (by decide!),
    (filter_precision id UTC Time.zero 2025 "Nov 03 16:25:43 host sshd[1]: session opened" "").2.1
      (by decide!) (by decide!) (by decide!)⟩

/-- C7, counterexample: a line with an event body and no leading timestamp matches the
event-body pattern only, and the macOS line parser returns a Violation for it, stamped with the
reading of the clock. -/
theorem body_only_line_is_kept :
    timestampPattern.FindStringSubmatch bodyOnlyLine = [] ∧
      sandboxPattern.FindStringSubmatch bodyOnlyLine ≠ [] ∧
      Darwin.parseViolation Time.zero bodyOnlyLine =
        some
          { Timestamp := Time.zero
            ProcessName := "cat"
            ProcessID := "13276"
            Operation := "file-read-data"
            TargetPath := "/Users/x/.ssh/config"
            DenyCode := "1"
            RawLine := bodyOnlyLine } := by decide!

/-- C7, amended: the macOS line parser returns a Violation exactly when the event-body pattern
matches the line; the leading-timestamp pattern is not required, and when it does not match
the Violation carries the reading of the clock. -/
theorem body_pattern_decides (now : Time) (line : String) :
    ((Darwin.parseViolation now line).isSome = true ↔
      sandboxPattern.FindStringSubmatch line ≠ []) ∧
    (sandboxPattern.FindStringSubmatch line ≠ [] →
      timestampPattern.FindStringSubmatch line = [] →
      ∃ v, Darwin.parseViolation now line = some v ∧ v.Timestamp = now) := by
  refine ⟨darwin_isSome_iff now line, ?_⟩
  intro hm ht
  have h6 : (sandboxPattern.FindStringSubmatch line).length = 6 := by
    rcases find_length sandboxPattern line with h | h
    · exact absurd h hm
    · exact h
  unfold Darwin.parseViolation
  simp only [h6, ne_eq, not_true_eq_false, if_false]
  refine ⟨_, rfl, ?_⟩
  simp only [ht, List.length_nil, show ¬ (1 < 0) from by decide, if_false, zero_isZero,
    if_true]

/-- The line with an event body and no timestamp is kept, stamped with the clock. -/
theorem body_pattern_decides_witness :
    ∃ v, Darwin.parseViolation Time.zero bodyOnlyLine = some v ∧ v.Timestamp = Time.zero :=
  (body_pattern_decides Time.zero bodyOnlyLine).2 (by decide!) (by decide!)

/-- C8, counterexample: a journal line of the process `kernel` whose message contains `bwrap`
matches the header pattern and is discarded all the same. -/
theorem message_bwrap_is_discarded :
    journalPattern.FindStringSubmatch kernelLine =
        [kernelLine, "Nov 03 16:25:43", "kernel", "1", "bwrap: Permission denied: /path/to/file"] ∧
      strings.Contains (strings.ToLower id "bwrap: Permission denied: /path/to/file") "bwrap" =
        true ∧
      Linux.parseViolation id UTC Time.zero kernelLine 2025 = none := by decide!

/-- C8, amended: a line the header pattern matches gives a Violation exactly when the
lower-case process name contains `bwrap` or the lower-case message contains `bubblewrap`. -/
theorem tool_check (tbl : Char → Char) (Local : Location) (now : Time) (line : String)
    (year : Int) (hm : journalPattern.FindStringSubmatch line ≠ []) :
    (Linux.parseViolation tbl Local now line year).isSome = true ↔
      (strings.Contains (strings.ToLower tbl ((journalPattern.FindStringSubmatch line).getD 2 ""))
          "bwrap" = true ∨
        strings.Contains (strings.ToLower tbl ((journalPattern.FindStringSubmatch line).getD 4 ""))
          "bubblewrap" = true) :=
  linux_isSome_iff tbl Local now line year hm

/-- The example journal line matches the header pattern, so the equivalence holds for it. -/
theorem tool_check_witness :
    (Linux.parseViolation id UTC Time.zero journalLine 2025).isSome = true ↔
      (strings.Contains
          (strings.ToLower id ((journalPattern.FindStringSubmatch journalLine).getD 2 ""))
          "bwrap" = true ∨
        strings.Contains
          (strings.ToLower id ((journalPattern.FindStringSubmatch journalLine).getD 4 ""))
          "bubblewrap" = true) :=
  tool_check id UTC Time.zero journalLine 2025 (by decide!)

/-- C9, counterexample: on the empty text both functions return the nil slice. -/
theorem empty_text_gives_nil_slice :
    (Darwin.parseLogOutput Time.zero "").1.isNil = true ∧
      (Linux.parseJournalOutput id UTC Time.zero "").1.isNil = true := by decide!

/-- C9, amended: on the empty text `parseLogOutput` and `parseJournalOutput` return a sequence
of length zero, which is the nil slice, and no error. -/
theorem empty_text_gives_nothing (tbl : Char → Char) (Local : Location) (now : Time) :
    Darwin.parseLogOutput now "" = (Slice.nil, none) ∧
      (Darwin.parseLogOutput now "").1.toList.length = 0 ∧
      Linux.parseJournalOutput tbl Local now "" = (Slice.nil, none) ∧
      (Linux.parseJournalOutput tbl Local now "").1.toList.length = 0 :=
  ⟨rfl, rfl, rfl, rfl⟩

/-! ## The claims on whole texts -/

theorem splitTokens_single : ∀ (l acc : List Char), (∀ c ∈ l, c.toNat ≠ 10) →
    (acc ≠ [] ∨ l ≠ []) → splitTokens l acc = [acc.reverse ++ l] := by
  intro l
  induction l with
  | nil =>
    intro acc _ hne
    have hacc : acc ≠ [] := by
      rcases hne with h | h
      · exact h
      · exact absurd rfl h
    cases acc with
    | nil => exact absurd rfl hacc
    | cons a as => simp [splitTokens]
  | cons c cs ih =>
    intro acc hall _
    have hc : c.toNat ≠ 10 := hall c (List.mem_cons_self _ _)
    simp only [splitTokens, hc, if_false]
    rw [ih (c :: acc) (fun d hd => hall d (List.mem_cons_of_mem _ hd)) (Or.inl (by simp))]
    simp

theorem utf8Len_replicate (c : Char) : ∀ n : Nat,
    utf8Len (List.replicate n c) = n * c.utf8Size := by
  intro n
  induction n with
  | zero => simp [utf8Len]
  | succ n ih =>
    rw [List.replicate_succ]
    simp only [utf8Len, ih]
    ring

theorem dropCR_replicate (c : Char) (hc : c.toNat ≠ 13) (n : Nat) :
    dropCR (List.replicate n c) = List.replicate n c := by
  unfold dropCR
  rw [List.reverse_replicate]
  cases n with
  | zero => rfl
  | succ n => simp [List.replicate_succ, hc]

theorem splitTokens_replicate (c : Char) (hc : c.toNat ≠ 10) (n : Nat) (hn : 0 < n) :
    splitTokens (List.replicate n c) [] = [List.replicate n c] := by
  have h := splitTokens_single (List.replicate n c) []
    (fun d hd => by rw [List.eq_of_mem_replicate hd]; exact hc)
    (Or.inr (by
      intro h0
      have := congrArg List.length h0
      simp at this
      omega))
  simpa using h

theorem scan_replicate (c : Char) (hc : c.toNat ≠ 10) (n : Nat) (hn : 0 < n)
    (hlen : MaxScanTokenSize ≤ n * c.utf8Size) :
    scan (String.mk (List.replicate n c)) = ⟨[], some .ErrTooLong⟩ := by
  unfold scan
  rw [splitTokens_replicate c hc n hn]
  simp only [scanTokens]
  rw [utf8Len_replicate]
  simp only [hlen, if_true]

theorem textLines_replicate (c : Char) (hc : c.toNat ≠ 10) (hcr : c.toNat ≠ 13) (n : Nat)
    (hn : 0 < n) :
    textLines (String.mk (List.replicate n c)) = [String.mk (List.replicate n c)] := by
  unfold textLines
  rw [splitTokens_replicate c hc n hn]
  simp only [List.map_cons, List.map_nil]
  rw [dropCR_replicate c hcr n]

theorem head_replicate (c : Char) (n : Nat) (hn : 0 < n) :
    (List.replicate n c).head? = some c := by
  cases n with
  | zero => exact absurd hn (by decide)
  | succ n => rfl

theorem parseJournalOutput_fault (tbl : Char → Char) (Local : Location) (now : Time)
    (text : String) (e : GoError) (h : scan text = ⟨[], some e⟩) :
    Linux.parseJournalOutput tbl Local now text =
      (Slice.nil, some (.wrap "error scanning journal output: " e)) := by
  unfold Linux.parseJournalOutput
  rw [h]
  rfl

/-- C10, counterexample: a text of one line of 65536 opening brackets has only lines that
begin with `[`, and `parseJournalOutput` returns the error `token too long` for it. -/
theorem long_bracket_line_faults :
    (∀ l ∈ textLines longBracketText, l.data.head? = some '[') ∧
      Linux.parseJournalOutput id UTC Time.zero longBracketText =
        (Slice.nil, some (.wrap "error scanning journal output: " .ErrTooLong)) := by
  constructor
  · intro l hl
    unfold longBracketText at hl
    rw [textLines_replicate '[' (by decide) (by decide) 65536 (by decide)] at hl
    rw [List.mem_singleton.1 hl]
    exact head_replicate '[' 65536 (by decide)
  · exact parseJournalOutput_fault id UTC Time.zero longBracketText _
      (scan_replicate '[' (by decide) 65536 (by decide) (by decide))

/-- C10, amended: a line that does not begin with a word character is refused by the Linux
line parser for every year; for a text all of whose lines begin with `[`, `parseJournalOutput`
returns the nil slice, with no error when the scanner reads the text without fault, and
`collectFromDmesg` returns no violation from such an output of `dmesg`. -/
theorem bracket_lines_yield_nothing (output : Linux.Cmd → Except GoError String)
    (tbl : Char → Char) (Local : Location) (now : Time) (year : Int) (line text : String) :
    ((∀ c, line.data.head? = some c → isWord c = false) →
      Linux.parseViolation tbl Local now line year = none) ∧
    ((∀ l ∈ textLines text, l.data.head? = some '[') →
      (Linux.parseJournalOutput tbl Local now text).1 = Slice.nil ∧
        ((scan text).err = none → Linux.parseJournalOutput tbl Local now text =
          (Slice.nil, none)) ∧
        (output dmesgCmd = .ok text →
          (Linux.collectFromDmesg output tbl Local now []).violations = Slice.nil)) := by
  have hline : ∀ l : String, (∀ c, l.data.head? = some c → isWord c = false) →
      Linux.parseViolation tbl Local now l now.year = none := by
    intro l h
    exact linux_none_of_head tbl Local now l now.year
      (by intro x xs hx; exact h x (by rw [hx]; rfl))
  constructor
  · intro h
    exact linux_none_of_head tbl Local now line year
      (by intro x xs hx; exact h x (by rw [hx]; rfl))
  · intro hall
    have hfst : (Linux.parseJournalOutput tbl Local now text).1 = Slice.nil := by
      rw [parseJournalOutput_fst]
      apply foldl_step_nil
      intro l hl vs
      apply parseJournalStep_none
      apply hline
      intro c hc
      rw [hall l (scan_lines_mem text l hl)] at hc
      simp only [Option.some.injEq] at hc
      rw [← hc]
      decide
    refine ⟨hfst, ?_, ?_⟩
    · intro herr
      exact Prod.ext hfst (parseJournalOutput_snd tbl Local now text herr)
    · intro hout
      unfold dmesgCmd at hout
      unfold Linux.collectFromDmesg
      simp only [hout]
      exact hfst

/-- A `dmesg -T` line is refused, and a text of two such lines gives nothing and no error. -/
theorem bracket_lines_yield_nothing_witness :
    Linux.parseViolation id UTC Time.zero
        "[Mon Nov  3 16:25:43 2025] bwrap: Permission denied: /path/to/file" 2025 = none ∧
      Linux.parseJournalOutput id UTC Time.zero dmesgText = (Slice.nil, none) :=
  ⟨(bracket_lines_yield_nothing bothFail id UTC Time.zero 2025
      "[Mon Nov  3 16:25:43 2025] bwrap: Permission denied: /path/to/file" dmesgText).1
      (by decide!),
    ((bracket_lines_yield_nothing bothFail id UTC Time.zero 2025
      "[Mon Nov  3 16:25:43 2025] bwrap: Permission denied: /path/to/file" dmesgText).2
      (by decide!)).2.1 (by decide!)⟩

/-- C6: for a text the scanner reads without fault, `parseLogOutput` and `parseJournalOutput`
return no error and exactly the Violations the line parser gives for the lines of the text, in
the order of the lines; a Violation parsed from a line has that line, which is not empty, as
its `RawLine`; so the `RawLine`s of the result are the accepted lines in order, a sublist of
the lines of the text. -/
theorem assembly_in_source_order (tbl : Char → Char) (Local : Location) (now : Time)
    (text : String) (hscan : (scan text).err = none) :
    ((Darwin.parseLogOutput now text).2 = none ∧
      (Darwin.parseLogOutput now text).1.toList =
        (textLines text).filterMap (Darwin.parseViolation now) ∧
      (∀ line v, Darwin.parseViolation now line = some v → v.RawLine = line ∧ line ≠ "") ∧
      (Darwin.parseLogOutput now text).1.toList.map Violation.RawLine =
        (textLines text).filter (fun l => (Darwin.parseViolation now l).isSome) ∧
      ((Darwin.parseLogOutput now text).1.toList.map Violation.RawLine).Sublist
        (textLines text)) ∧
    ((Linux.parseJournalOutput tbl Local now text).2 = none ∧
      (Linux.parseJournalOutput tbl Local now text).1.toList =
        (textLines text).filterMap
          (fun l => Linux.parseViolation tbl Local now l now.year) ∧
      (∀ line v, Linux.parseViolation tbl Local now line now.year = some v →
        v.RawLine = line ∧ line ≠ "") ∧
      (Linux.parseJournalOutput tbl Local now text).1.toList.map Violation.RawLine =
        (textLines text).filter
          (fun l => (Linux.parseViolation tbl Local now l now.year).isSome) ∧
      ((Linux.parseJournalOutput tbl Local now text).1.toList.map Violation.RawLine).Sublist
        (textLines text)) := by
  have hd : (Darwin.parseLogOutput now text).1.toList =
      (textLines text).filterMap (Darwin.parseViolation now) := by
    rw [parseLogOutput_toList, scan_lines_of_noerr text hscan]
  have hl : (Linux.parseJournalOutput tbl Local now text).1.toList =
      (textLines text).filterMap
        (fun l => Linux.parseViolation tbl Local now l now.year) := by
    rw [parseJournalOutput_toList, scan_lines_of_noerr text hscan]
  have hdm : (Darwin.parseLogOutput now text).1.toList.map Violation.RawLine =
      (textLines text).filter (fun l => (Darwin.parseViolation now l).isSome) := by
    rw [hd]
    exact filterMap_map_key _ _ (fun x v h => (darwin_rawLine now x v h).1) _
  have hlm : (Linux.parseJournalOutput tbl Local now text).1.toList.map
      Violation.RawLine = (textLines text).filter
        (fun l => (Linux.parseViolation tbl Local now l now.year).isSome) := by
    rw [hl]
    exact filterMap_map_key _ _
      (fun x v h => (linux_rawLine tbl Local now x now.year v h).1) _
  refine ⟨⟨parseLogOutput_snd now text hscan, hd,
      fun line v h => darwin_rawLine now line v h, hdm, ?_⟩,
    ⟨parseJournalOutput_snd tbl Local now text hscan, hl,
      fun line v h => linux_rawLine tbl Local now line now.year v h, hlm, ?_⟩⟩
  · rw [hdm]
    exact List.filter_sublist _
  · rw [hlm]
    exact List.filter_sublist _

/-- In a text of a journal line, a line of noise and a macOS line, each collector keeps its own
line. -/
theorem assembly_in_source_order_witness :
    (Darwin.parseLogOutput Time.zero mixedText).1.toList.map Violation.RawLine =
        [darwinLine] ∧
      (Linux.parseJournalOutput id UTC Time.zero mixedText).1.toList.map Violation.RawLine =
        [journalLine] := by
  have h := assembly_in_source_order id UTC Time.zero mixedText (by decide!)
  refine ⟨h.1.2.2.2.1.trans ?_, h.2.2.2.2.1.trans ?_⟩
  · decide!
  · decide!

/-! ## The calendar arithmetic of time.Date -/

end Collector
